import Mathlib

/-!
# Verification of the typed-ddb schema-resolution and data-access engine

Shallow embedding of the core `Repository` (src/dynamodb/core/Repository.ts)
and the decorator metadata (src/dynamodb/core/decorators.ts) of the typed-ddb
library, together with theorems settling the frozen specification claims about
value (de)serialization, timestamp bookkeeping, key resolution, relationship
joins and pagination.

JavaScript runtime values that flow through the engine are modelled by the
inductive `Value`; entities (plain JS objects) are association lists of
field-name/value pairs.  The external JSON builtin (`JSON.stringify` /
`JSON.parse`) and the backing store are collaborators outside the repository
and are passed in as parameters, constrained only by the contracts the
specification assigns to them.  Raw pagination keys returned by the store are
opaque to the repository and are modelled by a type parameter `κ`.
-/

namespace TypedDdb

/-- A JavaScript runtime value as seen by the data-access engine: store-native
scalars (string / number / boolean), in-memory `Date` objects (carried as
their epoch-millisecond reading), plain objects (association lists, covering
JSON payloads, structured foreign-key shapes and entity records), arrays, and
`undefined`.  JS `null` is conflated with `undefined` (both are falsy and both
are mapped to "absent" by every codec path of the engine). -/
inductive Value where
  | str : String → Value
  | num : Int → Value
  | boolV : Bool → Value
  | date : Int → Value
  | obj : List (String × Value) → Value
  | arr : List Value → Value
  | undef : Value

/-- JS truthiness: `undefined`, `""` and `0` are falsy; every object
(including `new Date(0)`), every non-empty string and non-zero number is
truthy. -/
def Value.truthy : Value → Bool
  | .str s => s ≠ ""
  | .num n => n ≠ 0
  | .boolV b => b
  | .date _ => true
  | .obj _ => true
  | .arr _ => true
  | .undef => false

/-- The JS `typeof` operator on a `Value`. -/
def Value.jsTypeof : Value → String
  | .str _ => "string"
  | .num _ => "number"
  | .boolV _ => "boolean"
  | .date _ => "object"
  | .obj _ => "object"
  | .arr _ => "object"
  | .undef => "undefined"

mutual

/-- JS string coercion (template-literal interpolation): strings pass through,
numbers and booleans print, plain objects render as `[object Object]`, arrays
join their elements with commas, `undefined` prints as `undefined`.
`Date#toString` is locale/timezone dependent and never reached through the
repository's key paths, so it is abstracted to a stable placeholder. -/
def Value.jsToString : Value → String
  | .str s => s
  | .num n => toString n
  | .boolV b => cond b "true" "false"
  | .date e => "[Date " ++ toString e ++ "]"
  | .obj _ => "[object Object]"
  | .arr vs => Value.jsToStringList vs
  | .undef => "undefined"

/-- JS `Array.prototype.toString`: elements coerced and joined by `,`. -/
def Value.jsToStringList : List Value → String
  | [] => ""
  | [v] => Value.jsToString v
  | v :: vs => Value.jsToString v ++ "," ++ Value.jsToStringList vs

end

/-- An entity instance / store record: a plain JS object, modelled as an
association list from field name to value.  JS object keys are unique, so
property writes update the existing slot in place. -/
def Ent : Type := List (String × Value)

/-- Property read `t[key]`: an absent property reads as `undefined`. -/
def getEnt : Ent → String → Value
  | [], _ => .undef
  | p :: ps, k => if p.1 = k then p.2 else getEnt ps k

/-- Property write `t[key] = v`: overwrite the (unique) existing slot when
present, append otherwise. -/
def setEnt : Ent → String → Value → Ent
  | [], k, v => [(k, v)]
  | p :: ps, k, v => if p.1 = k then (k, v) :: ps else p :: setEnt ps k v

theorem getEnt_setEnt_same (t : Ent) (k : String) (v : Value) :
    getEnt (setEnt t k v) k = v := by
  induction t with
  | nil => simp [getEnt, setEnt]
  | cons p ps ih =>
    by_cases hp : p.1 = k
    · simp [getEnt, setEnt, hp]
    · simp [getEnt, setEnt, hp, ih]

theorem getEnt_setEnt_other (t : Ent) (k k' : String) (v : Value) (h : k' ≠ k) :
    getEnt (setEnt t k v) k' = getEnt t k' := by
  have hkk : (k = k') = False := by
    simp only [eq_iff_iff, iff_false]
    exact fun hh => h hh.symm
  induction t with
  | nil => simp [getEnt, setEnt, hkk]
  | cons p ps ih =>
    by_cases hp : p.1 = k
    · subst hp
      simp [getEnt, setEnt, hkk]
    · by_cases hp' : p.1 = k'
      · simp [getEnt, setEnt, hp, hp', h]
      · simp [getEnt, setEnt, hp, hp', ih]

/-! ## Value Codec (Repository.serializeField / deserializeField /
serializeDate / deserializeDate / transform) -/

/-- The external JSON builtin used by the codec.  `stringify` is
`JSON.stringify` on field values; `parseV` is `JSON.parse` (composed with the
JS coercion of its argument to a string).  `keyStringify` / `keyParse` are the
same builtins applied to the store's raw pagination keys, which the repository
treats as opaque (`κ`).  The builtin's round-trip contract is assumed per
value where a claim needs it, matching the specification's treatment of JSON
as an external pure inverse. -/
structure JsonBuiltin (κ : Type) where
  stringify : Value → String
  parseV : Value → Value
  keyStringify : κ → String
  keyParse : String → κ

/-- Source `serializeField(plain)`: `undefined` for a falsy value, otherwise the JSON
text of the value (`JSON.stringify`). -/
def serializeField (J : JsonBuiltin κ) (v : Value) : Value :=
  if v.truthy = false then Value.undef else .str (J.stringify v)

/-- Source `deserializeField(serialized)`: `undefined` for a falsy value, otherwise
`JSON.parse` of the stored text. -/
def deserializeField (J : JsonBuiltin κ) (v : Value) : Value :=
  if v.truthy = false then Value.undef else J.parseV v

/-- Source `serializeDate(plain)`: `undefined` for a falsy value (a `Date` object is
always truthy, even at epoch 0), otherwise the date's epoch-millisecond
reading (`getTime()`).  The source's signature restricts the input to
`Date | undefined`; other truthy inputs cannot occur through the engine and
are passed through unchanged here. -/
def serializeDate (v : Value) : Value :=
  if v.truthy = false then Value.undef
  else
    match v with
    | .date e => .num e
    | x => x

/-- Source `deserializeDate(serialized)`: `undefined` for a falsy value — in
particular a stored epoch of `0` — otherwise `new Date(serialized)` with that
epoch value.  The source casts the input to `number`; stored date fields
always hold numbers, and other truthy inputs pass through unchanged here. -/
def deserializeDate (v : Value) : Value :=
  if v.truthy = false then Value.undef
  else
    match v with
    | .num e => .date e
    | x => x

/-- Transform direction, mirroring the `'serialize' | 'deserialize'` mode
argument of `Repository.transform`. -/
inductive Mode where
  | serialize
  | deserialize

/-- The per-field reflect-metadata the decorators (`@Attribute`, `@BelongsTo`,
`@PartitionKey`, `@SortKey`, `@Index`) define on an entity class prototype.
`typeTag` is the `'type'` metadata: the decorators only ever store one of the
string literals `'string' | 'number' | 'boolean' | 'undefined' | 'enums' |
'object' | 'array' | 'date'` (or leave it undefined), never a constructor
function.  `partKey` / `sortKeyM` model the `'partitionKey'` / `'sortKey'`
metadata entries, whose stored payload `{field, type}` is represented by its
type tag (the field name always equals the decorated property).
`partKeyIdx` / `sortKeyIdx` model the per-index entries
`partitionKey(<index>)` / `sortKey(<index>)`. -/
structure FieldMeta where
  typeTag : Option String := none
  isObject : Bool := false
  isArray : Bool := false
  isDate : Bool := false
  belongsTo : Option (Value → Value) := none
  belongsToRev : Option (Value → Value) := none
  partKey : Option (Option String) := none
  sortKeyM : Option (Option String) := none
  partKeyIdx : String → Option (Option String) := fun _ => none
  sortKeyIdx : String → Option (Option String) := fun _ => none

/-- The reflect-metadata of one entity class: the ordered `'keys'` list of
attribute-decorated fields, the `'joinTables'` list of relationship fields,
per-field metadata, and the `'hasOne'` / `'hasMany'` relationship providers.
`ρ` is the type of class references returned by a provider (resolved through
an environment `ρ → ClassDef ρ`). -/
structure Meta (ρ : Type) where
  keys : List String
  joinTables : List String := []
  fields : String → FieldMeta
  hasOne : String → Option ρ := fun _ => none
  hasMany : String → Option ρ := fun _ => none

/-- One step of `Repository.transform` on the value of a single decorated
field: the JSON step for object/array fields, then the date step, then the
caller-declared foreign-key transformer (`belongsTo` when serializing,
`belongsToRev` when deserializing), each reassigning the field in place as in
the source. -/
def transformKey (J : JsonBuiltin κ) (mode : Mode) (fm : FieldMeta) (v : Value) : Value :=
  let v1 :=
    if fm.isObject || fm.isArray then
      match mode with
      | .serialize => serializeField J v
      | .deserialize => deserializeField J v
    else v
  let v2 :=
    if fm.isDate then
      match mode with
      | .serialize => serializeDate v1
      | .deserialize => deserializeDate v1
    else v1
  match (match mode with | .serialize => fm.belongsTo | .deserialize => fm.belongsToRev) with
  | some f => f v2
  | none => v2

/-- Source `Repository.transform`: iterate over the decorated `keys`, mutating each
field of the record in place. -/
def transform (J : JsonBuiltin κ) (m : Meta ρ) (mode : Mode) (t : Ent) : Ent :=
  m.keys.foldl (fun acc k => setEnt acc k (transformKey J mode (m.fields k) (getEnt acc k))) t

/-- Source `Repository.transform` on a nullable record (`if (!t) return null`). -/
def transformOpt (J : JsonBuiltin κ) (m : Meta ρ) (mode : Mode) :
    Option Ent → Option Ent
  | none => none
  | some t => some (transform J m mode t)

theorem getEnt_foldlSet_not_mem (f : String → Value → Value) (ks : List String)
    (t : Ent) (k : String) (hk : k ∉ ks) :
    getEnt (ks.foldl (fun acc k2 => setEnt acc k2 (f k2 (getEnt acc k2))) t) k
      = getEnt t k := by
  induction ks generalizing t with
  | nil => rfl
  | cons k' ks ih =>
    simp only [List.mem_cons, not_or] at hk
    simp only [List.foldl_cons]
    rw [ih _ hk.2, getEnt_setEnt_other _ _ _ _ hk.1]

theorem getEnt_foldlSet_mem (f : String → Value → Value) (ks : List String)
    (t : Ent) (k : String) (hnd : ks.Nodup) (hk : k ∈ ks) :
    getEnt (ks.foldl (fun acc k2 => setEnt acc k2 (f k2 (getEnt acc k2))) t) k
      = f k (getEnt t k) := by
  induction ks generalizing t with
  | nil => cases hk
  | cons k' ks ih =>
    simp only [List.nodup_cons] at hnd
    simp only [List.foldl_cons]
    rcases List.mem_cons.mp hk with heq | hmem
    · subst heq
      rw [getEnt_foldlSet_not_mem _ _ _ _ hnd.1, getEnt_setEnt_same]
    · rw [ih _ hnd.2 hmem,
        getEnt_setEnt_other _ _ _ _ (fun h => hnd.1 (by rw [← h]; exact hmem))]

theorem transform_getEnt_not_mem (J : JsonBuiltin κ) (m : Meta ρ) (mode : Mode)
    (t : Ent) (k : String) (hk : k ∉ m.keys) :
    getEnt (transform J m mode t) k = getEnt t k :=
  getEnt_foldlSet_not_mem _ _ _ _ hk

theorem transform_getEnt_mem (J : JsonBuiltin κ) (m : Meta ρ) (mode : Mode)
    (t : Ent) (k : String) (hnd : m.keys.Nodup) (hk : k ∈ m.keys) :
    getEnt (transform J m mode t) k = transformKey J mode (m.fields k) (getEnt t k) :=
  getEnt_foldlSet_mem _ _ _ _ hnd hk

/-! ## Error taxonomy and key resolution -/

/-- Errors thrown by the access engine, one constructor per throw site of the
source (the source throws plain `Error`s; the constructors carry the exact
message strings).  `typeError` models a JS `TypeError` raised by a property
access on `undefined`. -/
inductive RepoError where
  | keyError : String → RepoError
  | typeError : RepoError
  | typeMismatch : String → RepoError
  | joinError : String → RepoError
  | consistencyError : String → RepoError
  | notFound : String → RepoError
  | validationError : String → RepoError
  deriving DecidableEq

/-- The `{field, type}` record returned by the key-metadata resolvers. -/
structure KeyMeta where
  field : String
  type : Option String
  deriving DecidableEq

/-- Source `Repository.getPartitionKeyMeta(secondaryIndexName?)`: walk the decorated
keys and return the first carrying `partitionKey` (resp.
`partitionKey(<index>)`) metadata; throw when none does. -/
def getPartitionKeyMeta (m : Meta ρ) (idx : Option String) : Except RepoError KeyMeta :=
  match m.keys.findSome? (fun k =>
      (match idx with
       | none => (m.fields k).partKey
       | some i => (m.fields k).partKeyIdx i).map (fun ty => KeyMeta.mk k ty)) with
  | some km => .ok km
  | none => .error (.keyError "No field annotated with @PartitionKey found.")

/-- Source `Repository.getSortKeyMeta(secondaryIndexName?)`: as above for `sortKey`
metadata, returning `undefined` instead of throwing. -/
def getSortKeyMeta (m : Meta ρ) (idx : Option String) : Option KeyMeta :=
  m.keys.findSome? (fun k =>
    (match idx with
     | none => (m.fields k).sortKeyM
     | some i => (m.fields k).sortKeyIdx i).map (fun ty => KeyMeta.mk k ty))

/-- The JS property read `<typeTag>.name` appearing in `Repository.get`'s
partition-key type check.  The stored type metadata is one of the decorators'
string literals, and a JS string has no `name` property, so the read yields
`undefined`; on absent metadata (`undefined.name`) it throws a `TypeError`. -/
def typeTagNameProp : Option String → Except RepoError (Option String)
  | none => .error .typeError
  | some _ => .ok none

/-- The partition-key type check at the top of `Repository.get`:
`if (partitionKeyMeta.type.name && typeof partitionKeyValue !== partitionKeyMeta.type) throw ...`. -/
def partitionKeyTypeGuard (km : KeyMeta) (pkv : Value) : Except RepoError Unit := do
  let nameProp ← typeTagNameProp km.type
  match nameProp with
  | some nm =>
      if nm ≠ "" ∧ pkv.jsTypeof ≠ km.type.getD "" then
        .error (.typeMismatch ("Invalid type for partition key. Expected " ++ nm
          ++ ", received " ++ pkv.jsTypeof))
      else .ok ()
  | none => .ok ()

/-- Apply an optional caller-declared foreign-key serializer
(`serializer ? serializer(v) : v`). -/
def applySer (f : Option (Value → Value)) (v : Value) : Value :=
  match f with
  | some g => g v
  | none => v

/-! ## Query, scan and pagination (Repository.query / scan / postProcess) -/

/-- One store-level key condition: partition-key equality
(`{[field]: serialized}`) or an operator record (`{[field]: {[op]: value}}`). -/
inductive StoreCond where
  | eqv : Value → StoreCond
  | cmp : String → Value → StoreCond

/-- The request the repository hands to the backing store's query/scan
primitive: the built conditions, the optional secondary-index name
(`query.using`), the decoded resume position (`query.startAt`), the page limit
(`query.limit`, default 1000) and the sort order (`query.sort`). -/
structure StoreReq (κ : Type) where
  conds : List (String × StoreCond)
  index : Option String
  startAt : Option κ
  limit : Nat
  sort : Option String

/-- A raw result page from the backing store: the row records, dynamoose's
`count`, and the raw `lastKey` (absent when the page is exhaustive). -/
structure RawPage (κ : Type) where
  rows : List Ent
  count : Nat
  lastKey : Option κ

/-- The `QueryResult` returned to callers: deserialized rows plus `count` and
the opaque string continuation token `lastKey`. -/
structure QueryResult where
  rows : List Ent
  count : Nat
  lastKey : Option String

/-- The `options` argument of `Repository.query`. -/
structure QueryOpts where
  index : Option String := none
  limit : Option Nat := none
  lastKey : Option String := none
  sort : Option String := none

/-- Source `Repository.postProcess`: deserialize every row, attach the raw `count`,
and attach `JSON.stringify(raw.lastKey)` — which is `undefined` exactly when
the raw `lastKey` is `undefined`, since `JSON.stringify(undefined)` is itself
`undefined`. -/
def postProcess (J : JsonBuiltin κ) (m : Meta ρ) (raw : RawPage κ) : QueryResult where
  rows := raw.rows.map (transform J m .deserialize)
  count := raw.count
  lastKey := raw.lastKey.map J.keyStringify

/-- The condition-building and option-handling part of `Repository.query`,
up to the store call: resolve the (index) partition key, serialize the
partition-key value through the field's `belongsTo` serializer when declared,
add the optional sort-key condition (reading `sortKeyMeta.field` throws a JS
`TypeError` when the schema resolves no sort key for the requested scope),
decode a truthy resume token with `JSON.parse`, and default the limit
to 1000. -/
def buildQueryReq (J : JsonBuiltin κ) (m : Meta ρ) (pkv : Value)
    (skc : Option (String × Value)) (opts : QueryOpts) : Except RepoError (StoreReq κ) := do
  let hk ← getPartitionKeyMeta m opts.index
  let serialized := applySer (m.fields hk.field).belongsTo pkv
  let base := [(hk.field, StoreCond.eqv serialized)]
  let conds ← match skc with
    | none => pure base
    | some (op, v) =>
        match getSortKeyMeta m opts.index with
        | none => Except.error RepoError.typeError
        | some sk =>
            let sv := applySer (m.fields sk.field).belongsTo v
            pure (base ++ [(sk.field, StoreCond.cmp op sv)])
  let startAt :=
    match opts.lastKey with
    | some s => if s ≠ "" then some (J.keyParse s) else none
    | none => none
  pure { conds := conds, index := opts.index, startAt := startAt,
         limit := opts.limit.getD 1000, sort := opts.sort }

/-- Source `Repository.query`: build the request, call the backing store's query
primitive, post-process the raw page. -/
def queryOp (J : JsonBuiltin κ) (m : Meta ρ) (storeQ : StoreReq κ → RawPage κ)
    (pkv : Value) (skc : Option (String × Value)) (opts : QueryOpts) :
    Except RepoError QueryResult := do
  let req ← buildQueryReq J m pkv skc opts
  pure (postProcess J m (storeQ req))

/-- Source `Repository.getWithUniqueHashKey`: query by partition key alone, fail on
more than one row, `null` on zero rows, else the first row. -/
def getWithUniqueHashKey (J : JsonBuiltin κ) (m : Meta ρ)
    (storeQ : StoreReq κ → RawPage κ) (pkv : Value) : Except RepoError (Option Ent) := do
  let array ← queryOp J m storeQ pkv none {}
  if array.count > 1 then
    .error (.consistencyError "Hash key has more than 1 row")
  else if array.count = 0 then
    pure none
  else
    pure array.rows.head?

/-- The entries of one scan filter condition object
(`Object.entries(filters.partitionKey)`). -/
def ScanFilterObj : Type := List (String × Value)

/-- Source `Repository.scan`: optional partition/sort filter conditions with
entry-count validation, then the same store call and post-processing as
`query`.  Destructuring `Object.entries(sortKey)[0]` from an empty condition
object, or reading `sortKeyMeta.field` when no sort key resolves, throws a JS
`TypeError`. -/
def scanOp (J : JsonBuiltin κ) (m : Meta ρ) (storeS : StoreReq κ → RawPage κ)
    (pkFilter skFilter : Option ScanFilterObj) (opts : QueryOpts) :
    Except RepoError QueryResult := do
  let conds1 ← match pkFilter with
    | none => pure ([] : List (String × StoreCond))
    | some fobj => do
        if fobj.length ≠ 1 then
          Except.error (RepoError.validationError
            "Must have only one filter condition for hashKey during scan")
        else
          match getPartitionKeyMeta m opts.index with
          | .error e => Except.error e
          | .ok km =>
              match fobj with
              | [] => Except.error RepoError.typeError
              | (op, v) :: _ =>
                  pure [(km.field, StoreCond.cmp op (applySer (m.fields km.field).belongsTo v))]
  let conds ← match skFilter with
    | none => pure conds1
    | some fobj => do
        if fobj.length > 1 then
          Except.error (RepoError.validationError
            "Must have maximum one filter condition for sortKey during scan")
        else
          match getSortKeyMeta m opts.index with
          | none => Except.error RepoError.typeError
          | some sk =>
              match fobj with
              | [] => Except.error RepoError.typeError
              | (op, v) :: _ =>
                  pure (conds1 ++ [(sk.field, StoreCond.cmp op (applySer (m.fields sk.field).belongsTo v))])
  let startAt :=
    match opts.lastKey with
    | some s => if s ≠ "" then some (J.keyParse s) else none
    | none => none
  let req : StoreReq κ := { conds := conds, index := opts.index, startAt := startAt,
                            limit := opts.limit.getD 1000, sort := none }
  pure (postProcess J m (storeS req))

/-! ## Create / update / delete (Repository.create / update / delete) -/

/-- Source `Repository.create(item)`: set `CreatedAt` and `UpdatedAt` to the current
time when (and only when) those exact capitalized names appear in the
decorated `keys`; serialize in place; write the serialized record; return the
deserialization of the (mutated, serialized) record.  The result pairs the
written record with the returned item; `now` is the engine's clock reading
(`new Date()`). -/
def createOp (J : JsonBuiltin κ) (m : Meta ρ) (item : Ent) (now : Int) : Ent × Ent :=
  let item1 := if m.keys.contains "CreatedAt" then setEnt item "CreatedAt" (.date now) else item
  let item2 := if m.keys.contains "UpdatedAt" then setEnt item1 "UpdatedAt" (.date now) else item1
  let written := transform J m .serialize item2
  (written, transform J m .deserialize written)

/-- Source `Repository.update(item)`: derive the key record from the item's own key
fields (through the foreign-key serializers when declared), read the previous
snapshot, set `UpdatedAt` to the current time when that exact capitalized name
is declared, serialize in place, write, and return the deserialization of the
serialized record.  The result carries the written record, the returned item
and the previous snapshot handed to the notification sink. -/
def updateOp (J : JsonBuiltin κ) (m : Meta ρ) (storeGet : Ent → Option Ent)
    (item : Ent) (now : Int) : Except RepoError (Ent × Ent × Option Ent) := do
  let pkMeta ← getPartitionKeyMeta m none
  let skMeta := getSortKeyMeta m none
  let inputKey := setEnt [] pkMeta.field
    (applySer (m.fields pkMeta.field).belongsTo (getEnt item pkMeta.field))
  let inputKey :=
    match skMeta with
    | some sk => setEnt inputKey sk.field
        (applySer (m.fields sk.field).belongsTo (getEnt item sk.field))
    | none => inputKey
  let previousItem := transformOpt J m .deserialize (storeGet inputKey)
  let item1 := if m.keys.contains "UpdatedAt" then setEnt item "UpdatedAt" (.date now) else item
  let written := transform J m .serialize item1
  pure (written, transform J m .deserialize written, previousItem)

/-- A store side effect issued by `Repository.delete`. -/
inductive StoreEff where
  | readItem : Ent → StoreEff
  | deleteItem : Ent → StoreEff

/-- Source `Repository.delete(partitionKeyValue, sortKeyValue?)`: derive the key
record, read first, and throw `NotFoundError` (issuing no delete) when the
store reports no item; otherwise delete the found item.  The result is the
trace of store effects actually issued together with the thrown error, if
any. -/
def deleteOp (m : Meta ρ) (storeGet : Ent → Option Ent)
    (pkv : Value) (skv : Option Value) : List StoreEff × Option RepoError :=
  match getPartitionKeyMeta m none with
  | .error e => ([], some e)
  | .ok hashKeyMeta =>
    let inputKey := setEnt [] hashKeyMeta.field
      (applySer (m.fields hashKeyMeta.field).belongsTo pkv)
    let inputKey :=
      match getSortKeyMeta m none with
      | some sk =>
          if (skv.map Value.truthy).getD false then
            setEnt inputKey sk.field (applySer (m.fields sk.field).belongsTo (skv.getD .undef))
          else inputKey
      | none => inputKey
    match storeGet inputKey with
    | none =>
        ([.readItem inputKey], some (.notFound
          ("Instance " ++ pkv.jsToString
            ++ (match skv with
                | some v => if v.truthy then "-" ++ v.jsToString else ""
                | none => "")
            ++ " is not found for deletion")))
    | some _ => ([.readItem inputKey, .deleteItem inputKey], none)

/-! ## Relationship resolution and get with joins
(Repository.resolveRelatedRepositories / get) -/

/-- An entity class as the environment resolves it: its reflect-metadata and
its `ModelClass.name`. -/
structure ClassDef (ρ : Type) where
  meta : Meta ρ
  name : String

/-- Relationship kind of a join-table entry. -/
inductive JoinKind where
  | hasOne
  | hasMany
  deriving DecidableEq

/-- One entry of the record built by `resolveRelatedRepositories`: the
relationship kind, the related class, and the `belongsTo` serializer found on
the related class's partition-key field (absent when that field carries
none). -/
structure JoinEntry (ρ : Type) where
  kind : JoinKind
  related : ρ
  fkTransformer : Option (Value → Value)

/-- Record update for the building of the related-repositories record. -/
def setAssoc : List (String × α) → String → α → List (String × α)
  | [], k, v => [(k, v)]
  | p :: ps, k, v => if p.1 = k then (k, v) :: ps else p :: setAssoc ps k v

/-- Record read `record[key]` returning `undefined` (`none`) when absent. -/
def lookupAssoc : List (String × α) → String → Option α
  | [], _ => none
  | p :: ps, k => if p.1 = k then some p.2 else lookupAssoc ps k

/-- Source `Repository.resolveRelatedRepositories`: for every field in the
`joinTables` metadata, resolve the `hasOne` / `hasMany` provider to the
related class, construct its repository, resolve that class's own
partition-key field (which can throw `KeyError`), and record the `belongsTo`
serializer declared on that field — without any check that one exists. -/
def resolveRelatedRepositories (env : ρ → ClassDef ρ) (m : Meta ρ) :
    Except RepoError (List (String × JoinEntry ρ)) :=
  m.joinTables.foldlM (fun acc key => do
    let acc1 ← match m.hasOne key with
      | some r => do
          let joined := (env r).meta
          let km ← getPartitionKeyMeta joined none
          pure (setAssoc acc key (JoinEntry.mk .hasOne r ((joined.fields km.field).belongsTo)))
      | none => pure acc
    match m.hasMany key with
      | some r => do
          let joined := (env r).meta
          let km ← getPartitionKeyMeta joined none
          pure (setAssoc acc1 key (JoinEntry.mk .hasMany r ((joined.fields km.field).belongsTo)))
      | none => pure acc1) []

/-- Source `Repository.get(partitionKeyValue, sortKeyValue?, joins)`: resolve the
primary key metadata, run the partition-key type check, serialize the key
parts through declared foreign-key serializers (the sort-key part only when a
sort key is declared and the supplied value is truthy), issue the point read,
deserialize, and — when the read found an item and joins were requested —
resolve each requested relationship by querying the related repository with
the current result object as the partition-key value: a `hasOne` join
attaches the first row, a `hasMany` join attaches the full page but fails the
whole call with a `JoinError` when the page carries a truthy continuation
token. -/
def getOp (J : JsonBuiltin κ) (env : ρ → ClassDef ρ) (m : Meta ρ)
    (storeGet : Ent → Option Ent) (storeQ : ρ → StoreReq κ → RawPage κ)
    (pkv : Value) (skv : Option Value) (joins : List String) :
    Except RepoError (Option Ent) := do
  let pkMeta ← getPartitionKeyMeta m none
  let skMeta := getSortKeyMeta m none
  let _ ← partitionKeyTypeGuard pkMeta pkv
  let inputKey := setEnt [] pkMeta.field (applySer (m.fields pkMeta.field).belongsTo pkv)
  let inputKey :=
    match skMeta with
    | some sk =>
        if (skv.map Value.truthy).getD false then
          setEnt inputKey sk.field (applySer (m.fields sk.field).belongsTo (skv.getD .undef))
        else inputKey
    | none => inputKey
  let result := transformOpt J m .deserialize (storeGet inputKey)
  match result with
  | none => pure none
  | some r0 =>
      if joins.isEmpty then pure (some r0)
      else do
        let repos ← resolveRelatedRepositories env m
        let r ← joins.foldlM (fun acc j => do
            match lookupAssoc repos j with
            | none => Except.error RepoError.typeError
            | some entry => do
                let mb := (env entry.related).meta
                let joined ← queryOp J mb (storeQ entry.related) (.obj acc) none {}
                match entry.kind with
                | .hasOne => pure (setEnt acc j ((joined.rows.head?).elim Value.undef Value.obj))
                | .hasMany =>
                    match joined.lastKey with
                    | some s =>
                        if s ≠ "" then
                          Except.error (RepoError.joinError
                            ("Unable to join all rows of " ++ (env entry.related).name))
                        else pure (setEnt acc j (Value.arr (joined.rows.map Value.obj)))
                    | none => pure (setEnt acc j (Value.arr (joined.rows.map Value.obj)))
          ) r0
        pure (some r)

/-- Source `Repository.getDefaultIndexName`: deterministic secondary-index name
derivation (`constructGSIname` in `util.ts` follows the same convention). -/
def getDefaultIndexName (type : String) (partitionKey : String)
    (sortKeyName : Option String) : String :=
  partitionKey ++ (if sortKeyName.isSome then "-" else "")
    ++ (sortKeyName.getD "")
    ++ (if type = "global" then "GlobalIndex" else "LocalIndex")

/-! ## The backing store's pagination primitive -/

/-- Modelled from the spec (§6, backing store primitive): the store is an
external collaborator whose query/scan primitive returns one page of the
condition-matching row sequence.  `rows` is that matching sequence in key
order, `keyOf` extracts a row's raw continuation key.  A request resumes
strictly after the row carrying the `startAt` key, takes at most `limit`
rows, reports the page's row count, and reports the raw key of the page's
last row exactly when further rows remain (the page is not exhaustive). -/
def tableQuery [DecidableEq κ] (rows : List Ent) (keyOf : Ent → κ)
    (req : StoreReq κ) : RawPage κ :=
  let positioned :=
    match req.startAt with
    | none => rows
    | some k => (rows.dropWhile (fun r => decide (keyOf r ≠ k))).tail
  let page := positioned.take req.limit
  { rows := page, count := page.length,
    lastKey := if positioned.length ≤ req.limit then none else page.getLast?.map keyOf }

/-! ## Codec round-trip analysis -/

/-- A value is JSON-safe for the external builtin: its JSON text is non-empty
and parses back to the value itself (the spec treats `JSON.parse` as a pure
inverse of `JSON.stringify` on JSON-safe values). -/
def JsonSafe (J : JsonBuiltin κ) (v : Value) : Prop :=
  J.stringify v ≠ "" ∧ J.parseV (.str (J.stringify v)) = v

/-- A declared field together with its value falls into one of the four codec
kinds of the spec (§4.2): a JSON object/array field holding an absent or
JSON-safe value; a date field holding an absent value or a date of non-zero
epoch; a foreign-key field whose declared serializer/deserializer pair are
mutual inverses at the value; or a plain field (no codec metadata at all). -/
def KindOK (J : JsonBuiltin κ) (fm : FieldMeta) (v : Value) : Prop :=
  ((fm.isObject || fm.isArray) = true ∧ fm.isDate = false ∧ fm.belongsTo = none
      ∧ fm.belongsToRev = none ∧ (v = .undef ∨ (v.truthy = true ∧ JsonSafe J v)))
  ∨ (fm.isDate = true ∧ fm.isObject = false ∧ fm.isArray = false ∧ fm.belongsTo = none
      ∧ fm.belongsToRev = none ∧ (v = .undef ∨ ∃ e : Int, e ≠ 0 ∧ v = .date e))
  ∨ (∃ f g, fm.belongsTo = some f ∧ fm.belongsToRev = some g ∧ fm.isObject = false
      ∧ fm.isArray = false ∧ fm.isDate = false ∧ g (f v) = v)
  ∨ (fm.isObject = false ∧ fm.isArray = false ∧ fm.isDate = false
      ∧ fm.belongsTo = none ∧ fm.belongsToRev = none)

theorem transformKey_roundtrip (J : JsonBuiltin κ) (fm : FieldMeta) (v : Value)
    (h : KindOK J fm v) :
    transformKey J .deserialize fm (transformKey J .serialize fm v) = v := by
  rcases h with ⟨hoa, hd, hbt, hbr, hv⟩ | ⟨hd, ho, ha, hbt, hbr, hv⟩
    | ⟨f, g, hbt, hbr, ho, ha, hd, hgf⟩ | ⟨ho, ha, hd, hbt, hbr⟩
  · rcases hv with rfl | ⟨htr, hne, hrt⟩
    · simp [transformKey, hoa, hd, hbt, hbr, serializeField, deserializeField, Value.truthy]
    · simp only [transformKey, hoa, hd, hbt, hbr, if_true]
      simp only [serializeField, htr, if_true, deserializeField]
      simp [Value.truthy, hne, hrt]
  · rcases hv with rfl | ⟨e, hne, rfl⟩
    · simp [transformKey, ho, ha, hd, hbt, hbr, serializeDate, deserializeDate, Value.truthy]
    · simp only [transformKey, ho, ha, hd, hbt, hbr, Bool.or_self, if_false, if_true]
      simp [serializeDate, deserializeDate, Value.truthy, hne]
  · simp [transformKey, ho, ha, hd, hbt, hbr, hgf]
  · simp [transformKey, ho, ha, hd, hbt, hbr]

/-! ## Concrete fixtures used by the witnesses and counterexamples -/

/-- A concrete instantiation of the external JSON builtin, sufficient for the
witness values used below (the round-trip contract is discharged pointwise at
those values). -/
def rtJ : JsonBuiltin Nat where
  stringify := fun _ => "{}"
  parseV := fun _ => .obj [("a", .num 1)]
  keyStringify := fun n => "K" ++ toString n
  keyParse := fun _ => 0

/-- Foreign-key serializer of the fixtures: `(user) => user.id`. -/
def idSer : Value → Value
  | .obj l => getEnt l "id"
  | x => x

/-- Foreign-key deserializer of the fixtures: `(id) => ({ id })`. -/
def idDeser (v : Value) : Value := .obj [("id", v)]

/-- Fixture schema exercising all four field kinds: a JSON object field, a
date field, a foreign-key field and a plain string field. -/
def rtMeta : Meta Unit where
  keys := ["meta", "CreatedAt", "ownerId", "name"]
  fields := fun k =>
    if k = "meta" then { typeTag := some "object", isObject := true }
    else if k = "CreatedAt" then { typeTag := some "date", isDate := true }
    else if k = "ownerId" then
      { typeTag := some "string", belongsTo := some idSer, belongsToRev := some idDeser }
    else { typeTag := some "string" }

/-- Fixture schema with a single date attribute. -/
def epochMeta : Meta Unit where
  keys := ["CreatedAt"]
  fields := fun _ => { typeTag := some "date", isDate := true }

/-! ## C1: codec round-trip -/

/-- C1 (amended): deserializing the serialization of an entity returns every
declared field unchanged, for every field of the four §4.2 kinds — JSON
object/array fields holding JSON-safe values, date fields holding dates of
**non-zero** epoch (or absent), foreign-key fields with mutually inverse
serializer pairs, and plain fields; undeclared fields are untouched.  The
claim's unrestricted statement for date fields fails at epoch 0 (see the
counterexample). -/
theorem serialize_deserialize_roundtrip (J : JsonBuiltin κ) (m : Meta ρ) (e : Ent)
    (hnd : m.keys.Nodup) (hok : ∀ k ∈ m.keys, KindOK J (m.fields k) (getEnt e k)) :
    ∀ k : String, getEnt (transform J m .deserialize (transform J m .serialize e)) k
      = getEnt e k := by
  intro k
  by_cases hk : k ∈ m.keys
  · rw [transform_getEnt_mem _ _ _ _ _ hnd hk, transform_getEnt_mem _ _ _ _ _ hnd hk]
    exact transformKey_roundtrip _ _ _ (hok k hk)
  · rw [transform_getEnt_not_mem _ _ _ _ _ hk, transform_getEnt_not_mem _ _ _ _ _ hk]

/-- C1 (counterexample): a conforming date field holding `new Date(0)` does
not round-trip — the deserializer returns `undefined` for a stored epoch of
0, so the claim's unrestricted round-trip for date fields is false. -/
theorem roundtrip_fails_on_epoch_zero_date :
    getEnt (transform rtJ epochMeta .deserialize
      (transform rtJ epochMeta .serialize [("CreatedAt", .date 0)])) "CreatedAt" = .undef
    ∧ Value.undef ≠ Value.date 0 :=
  ⟨rfl, fun h => Value.noConfusion h⟩

/-- C1 (witness): the amended round-trip theorem applied to a concrete entity
exercising all four field kinds. -/
theorem serialize_deserialize_roundtrip_witness :
    (getEnt (transform rtJ rtMeta .deserialize (transform rtJ rtMeta .serialize
        [("meta", .obj [("a", .num 1)]), ("CreatedAt", .date 3),
         ("ownerId", .obj [("id", .str "u1")]), ("name", .str "Ann")])) "meta"
      = .obj [("a", .num 1)])
    ∧ (getEnt (transform rtJ rtMeta .deserialize (transform rtJ rtMeta .serialize
        [("meta", .obj [("a", .num 1)]), ("CreatedAt", .date 3),
         ("ownerId", .obj [("id", .str "u1")]), ("name", .str "Ann")])) "CreatedAt"
      = .date 3)
    ∧ (getEnt (transform rtJ rtMeta .deserialize (transform rtJ rtMeta .serialize
        [("meta", .obj [("a", .num 1)]), ("CreatedAt", .date 3),
         ("ownerId", .obj [("id", .str "u1")]), ("name", .str "Ann")])) "ownerId"
      = .obj [("id", .str "u1")])
    ∧ (getEnt (transform rtJ rtMeta .deserialize (transform rtJ rtMeta .serialize
        [("meta", .obj [("a", .num 1)]), ("CreatedAt", .date 3),
         ("ownerId", .obj [("id", .str "u1")]), ("name", .str "Ann")])) "name"
      = .str "Ann") := by
  have h := serialize_deserialize_roundtrip rtJ rtMeta
    [("meta", .obj [("a", .num 1)]), ("CreatedAt", .date 3),
     ("ownerId", .obj [("id", .str "u1")]), ("name", .str "Ann")]
    (by decide)
    (by
      intro k hk
      simp only [rtMeta, List.mem_cons, List.not_mem_nil, or_false] at hk
      rcases hk with rfl | rfl | rfl | rfl
      · exact Or.inl ⟨rfl, rfl, rfl, rfl, Or.inr ⟨rfl, by decide, rfl⟩⟩
      · exact Or.inr (Or.inl ⟨rfl, rfl, rfl, rfl, rfl, Or.inr ⟨3, by decide, rfl⟩⟩)
      · exact Or.inr (Or.inr (Or.inl ⟨idSer, idDeser, rfl, rfl, rfl, rfl, rfl, rfl⟩))
      · exact Or.inr (Or.inr (Or.inr ⟨rfl, rfl, rfl, rfl, rfl⟩)))
  exact ⟨h "meta", h "CreatedAt", h "ownerId", h "name"⟩

/-! ## C6: date deserialization boundary -/

/-- C6: deserializing a stored date of epoch 0 yields `undefined` (the field
is treated as absent), and deserializing any non-zero epoch yields the `Date`
with exactly that epoch-millisecond value. -/
theorem deserializeDate_epoch_boundary :
    deserializeDate (.num 0) = .undef
    ∧ ∀ e : Int, e ≠ 0 → deserializeDate (.num e) = .date e := by
  constructor
  · rfl
  · intro e he
    simp [deserializeDate, Value.truthy, he]

/-- C6 (witness): the boundary theorem applied at epoch 5. -/
theorem deserializeDate_epoch_boundary_witness :
    deserializeDate (.num 0) = .undef ∧ deserializeDate (.num 5) = .date 5 :=
  ⟨deserializeDate_epoch_boundary.1, deserializeDate_epoch_boundary.2 5 (by decide)⟩

/-! ## C3: create timestamp population -/

/-- A field declared as a plain date attribute (`@Attribute({type: 'date'})`
with no other codec metadata), the shape of every timestamp column in the
repository's schemas. -/
def IsPlainDateField (fm : FieldMeta) : Prop :=
  fm.isObject = false ∧ fm.isArray = false ∧ fm.isDate = true
    ∧ fm.belongsTo = none ∧ fm.belongsToRev = none

/-- Fixture schema declaring its timestamp column in lower camel case
(`createdAt`), as the claim's "whichever casing the schema declares" would
allow. -/
def lowerMeta : Meta Unit where
  keys := ["id", "createdAt"]
  fields := fun k =>
    if k = "id" then { typeTag := some "string", partKey := some (some "string") }
    else { typeTag := some "date", isDate := true }

theorem createOp_written_timestamp (J : JsonBuiltin κ) (m : Meta ρ) (item : Ent)
    (now : Int) (ts : String) (hnd : m.keys.Nodup) (hts : ts = "CreatedAt" ∨ ts = "UpdatedAt")
    (hmem : ts ∈ m.keys) (hfm : IsPlainDateField (m.fields ts)) (hnow : now ≠ 0) :
    getEnt (createOp J m item now).1 ts = .num now
      ∧ getEnt (createOp J m item now).2 ts = .date now := by
  obtain ⟨ho, ha, hd, hbt, hbr⟩ := hfm
  have hCA : ("CreatedAt" : String) ≠ "UpdatedAt" := by decide
  have hset : getEnt
      (if m.keys.contains "UpdatedAt"
        then setEnt (if m.keys.contains "CreatedAt" then setEnt item "CreatedAt" (.date now) else item)
          "UpdatedAt" (.date now)
        else (if m.keys.contains "CreatedAt" then setEnt item "CreatedAt" (.date now) else item)) ts
      = .date now := by
    rcases hts with rfl | rfl
    · have hc : m.keys.contains "CreatedAt" = true := List.elem_eq_true_of_mem hmem
      by_cases hu : m.keys.contains "UpdatedAt" = true
      · simp only [hu, if_true, hc]
        rw [getEnt_setEnt_other _ _ _ _ hCA, getEnt_setEnt_same]
      · simp only [Bool.not_eq_true] at hu
        simp only [hu, Bool.false_eq_true, if_false, hc, if_true, getEnt_setEnt_same]
    · have hu : m.keys.contains "UpdatedAt" = true := List.elem_eq_true_of_mem hmem
      simp only [hu, if_true, getEnt_setEnt_same]
  have hser : getEnt (createOp J m item now).1 ts = .num now := by
    show getEnt (transform J m .serialize _) ts = .num now
    rw [transform_getEnt_mem _ _ _ _ _ hnd hmem, hset]
    simp [transformKey, ho, ha, hd, hbt, serializeDate, Value.truthy]
  refine ⟨hser, ?_⟩
  show getEnt (transform J m .deserialize (createOp J m item now).1) ts = .date now
  rw [transform_getEnt_mem _ _ _ _ _ hnd hmem, hser]
  simp [transformKey, ho, ha, hd, hbr, deserializeDate, Value.truthy, hnow]

/-- C3 (amended): `create` auto-populates the timestamp columns **only under
their exact capitalized names**: when `CreatedAt` (resp. `UpdatedAt`) is a
declared plain date attribute, the written record carries the clock reading as
its stored epoch and the returned item carries the populated `Date` (for a
non-zero clock reading); a timestamp name not declared on the schema is left
exactly as the caller passed it (absent stays absent).  The claim's
"whichever casing the schema declares" is false: a schema declaring
lower-camel `createdAt` is not populated (see the counterexample). -/
theorem create_populates_capitalized_timestamps (J : JsonBuiltin κ) (m : Meta ρ)
    (item : Ent) (now : Int) (hnd : m.keys.Nodup) (hnow : now ≠ 0) :
    (("CreatedAt" ∈ m.keys → IsPlainDateField (m.fields "CreatedAt") →
        getEnt (createOp J m item now).1 "CreatedAt" = .num now
          ∧ getEnt (createOp J m item now).2 "CreatedAt" = .date now)
      ∧ ("UpdatedAt" ∈ m.keys → IsPlainDateField (m.fields "UpdatedAt") →
        getEnt (createOp J m item now).1 "UpdatedAt" = .num now
          ∧ getEnt (createOp J m item now).2 "UpdatedAt" = .date now))
    ∧ (∀ ts : String, ts ∉ m.keys →
        getEnt (createOp J m item now).1 ts = getEnt item ts
          ∧ getEnt (createOp J m item now).2 ts = getEnt item ts) := by
  refine ⟨⟨fun hmem hfm => createOp_written_timestamp J m item now _ hnd (Or.inl rfl) hmem hfm hnow,
          fun hmem hfm => createOp_written_timestamp J m item now _ hnd (Or.inr rfl) hmem hfm hnow⟩,
         ?_⟩
  intro ts hts
  have hc : m.keys.contains "CreatedAt" = true → "CreatedAt" ∈ m.keys :=
    fun h => List.mem_of_elem_eq_true h
  have hts2 : ∀ t : Ent, getEnt
      (if m.keys.contains "UpdatedAt"
        then setEnt (if m.keys.contains "CreatedAt" then setEnt t "CreatedAt" (.date now) else t)
          "UpdatedAt" (.date now)
        else (if m.keys.contains "CreatedAt" then setEnt t "CreatedAt" (.date now) else t)) ts
      = getEnt t ts := by
    intro t
    by_cases hcm : m.keys.contains "CreatedAt" = true
    · by_cases hum : m.keys.contains "UpdatedAt" = true
      · simp only [hcm, hum, if_true]
        rw [getEnt_setEnt_other _ _ _ _ (fun h => hts (by rw [h]; exact List.mem_of_elem_eq_true hum)),
          getEnt_setEnt_other _ _ _ _ (fun h => hts (by rw [h]; exact List.mem_of_elem_eq_true hcm))]
      · simp only [Bool.not_eq_true] at hum
        simp only [hcm, hum, Bool.false_eq_true, if_false, if_true]
        rw [getEnt_setEnt_other _ _ _ _ (fun h => hts (by rw [h]; exact List.mem_of_elem_eq_true hcm))]
    · simp only [Bool.not_eq_true] at hcm
      by_cases hum : m.keys.contains "UpdatedAt" = true
      · simp only [hcm, hum, Bool.false_eq_true, if_false, if_true]
        rw [getEnt_setEnt_other _ _ _ _ (fun h => hts (by rw [h]; exact List.mem_of_elem_eq_true hum))]
      · simp only [Bool.not_eq_true] at hum
        simp only [hcm, hum, Bool.false_eq_true, if_false]
  have h1 : getEnt (createOp J m item now).1 ts = getEnt item ts := by
    show getEnt (transform J m .serialize _) ts = getEnt item ts
    rw [transform_getEnt_not_mem _ _ _ _ _ hts, hts2]
  refine ⟨h1, ?_⟩
  show getEnt (transform J m .deserialize (createOp J m item now).1) ts = getEnt item ts
  rw [transform_getEnt_not_mem _ _ _ _ _ hts, h1]

/-- C3 (counterexample): on a schema declaring lower-camel `createdAt` as its
timestamp column, `create` leaves the field absent instead of populating it
with the current time — the auto-population is case-sensitive, contradicting
"whichever casing the schema declares". -/
theorem create_ignores_lowercase_createdAt :
    getEnt (createOp rtJ lowerMeta [("id", .str "u1")] 5).2 "createdAt" = .undef
    ∧ Value.undef ≠ Value.date 5 :=
  ⟨rfl, fun h => Value.noConfusion h⟩

/-- C3 (witness): the amended theorem applied to a concrete schema declaring
capitalized `CreatedAt` (and no `UpdatedAt`), at clock reading 7. -/
theorem create_populates_capitalized_timestamps_witness :
    (getEnt (createOp rtJ epochMeta [] 7).1 "CreatedAt" = .num 7
      ∧ getEnt (createOp rtJ epochMeta [] 7).2 "CreatedAt" = .date 7)
    ∧ (getEnt (createOp rtJ epochMeta [] 7).2 "updatedAt" = .undef) := by
  have h := create_populates_capitalized_timestamps rtJ epochMeta [] 7 (by decide) (by decide)
  refine ⟨h.1.1 (by decide) ⟨rfl, rfl, rfl, rfl, rfl⟩, ?_⟩
  have h2 := (h.2 "updatedAt" (by decide)).2
  simpa using h2

/-! ## C4: update frame and timestamp bump -/

/-- C4: for an `update` whose caller passes through the original `CreatedAt`,
the returned item's `CreatedAt` equals that passed-in value; `UpdatedAt`
(declared as a plain date attribute) is set by the engine to the current
clock reading, which is strictly greater than the previous snapshot's
`UpdatedAt` reading under clock monotonicity (`p < now`); every other field
is written through to the store as the serialization of the caller's value,
and returns unchanged whenever its kind round-trips. -/
theorem update_preserves_createdAt_bumps_updatedAt (J : JsonBuiltin κ) (m : Meta ρ)
    (item prevRaw : Ent) (now c p : Int) (pkm : KeyMeta)
    (hnd : m.keys.Nodup) (hpk : getPartitionKeyMeta m none = .ok pkm)
    (hU : "UpdatedAt" ∈ m.keys) (hUf : IsPlainDateField (m.fields "UpdatedAt"))
    (hnow : now ≠ 0) (hCv : getEnt item "CreatedAt" = .date c)
    (hCk : "CreatedAt" ∈ m.keys → KindOK J (m.fields "CreatedAt") (getEnt item "CreatedAt"))
    (hprev : getEnt (transform J m .deserialize prevRaw) "UpdatedAt" = .date p)
    (hlt : p < now) :
    ∃ written result : Ent,
      updateOp J m (fun _ => some prevRaw) item now
          = .ok (written, result, some (transform J m .deserialize prevRaw))
      ∧ getEnt written "UpdatedAt" = .num now
      ∧ getEnt result "UpdatedAt" = .date now
      ∧ p < now
      ∧ getEnt result "CreatedAt" = .date c
      ∧ (∀ k, k ≠ "UpdatedAt" → k ∈ m.keys →
          getEnt written k = transformKey J .serialize (m.fields k) (getEnt item k))
      ∧ (∀ k, k ≠ "UpdatedAt" → k ∉ m.keys → getEnt written k = getEnt item k)
      ∧ (∀ k, k ≠ "UpdatedAt" → (k ∈ m.keys → KindOK J (m.fields k) (getEnt item k)) →
          getEnt result k = getEnt item k) := by
  obtain ⟨ho, ha, hd, hbt, hbr⟩ := hUf
  have hcu : m.keys.contains "UpdatedAt" = true := List.elem_eq_true_of_mem hU
  refine ⟨transform J m .serialize (setEnt item "UpdatedAt" (.date now)),
    transform J m .deserialize (transform J m .serialize (setEnt item "UpdatedAt" (.date now))),
    ?_, ?_, ?_, hlt, ?_, ?_, ?_, ?_⟩
  · simp [updateOp, hpk, hcu, hU, Except.bind, transformOpt]
  · rw [transform_getEnt_mem _ _ _ _ _ hnd hU, getEnt_setEnt_same]
    simp [transformKey, ho, ha, hd, hbt, serializeDate, Value.truthy]
  · rw [transform_getEnt_mem _ _ _ _ _ hnd hU, transform_getEnt_mem _ _ _ _ _ hnd hU,
      getEnt_setEnt_same]
    simp [transformKey, ho, ha, hd, hbt, hbr, serializeDate, deserializeDate,
      Value.truthy, hnow]
  · have hCA : ("CreatedAt" : String) ≠ "UpdatedAt" := by decide
    by_cases hCm : "CreatedAt" ∈ m.keys
    · rw [transform_getEnt_mem _ _ _ _ _ hnd hCm, transform_getEnt_mem _ _ _ _ _ hnd hCm,
        getEnt_setEnt_other _ _ _ _ hCA, transformKey_roundtrip _ _ _ (hCk hCm), hCv]
    · rw [transform_getEnt_not_mem _ _ _ _ _ hCm, transform_getEnt_not_mem _ _ _ _ _ hCm,
        getEnt_setEnt_other _ _ _ _ hCA, hCv]
  · intro k hk hkm
    rw [transform_getEnt_mem _ _ _ _ _ hnd hkm, getEnt_setEnt_other _ _ _ _ hk]
  · intro k hk hkm
    rw [transform_getEnt_not_mem _ _ _ _ _ hkm, getEnt_setEnt_other _ _ _ _ hk]
  · intro k hk hkind
    by_cases hkm : k ∈ m.keys
    · rw [transform_getEnt_mem _ _ _ _ _ hnd hkm, transform_getEnt_mem _ _ _ _ _ hnd hkm,
        getEnt_setEnt_other _ _ _ _ hk, transformKey_roundtrip _ _ _ (hkind hkm)]
    · rw [transform_getEnt_not_mem _ _ _ _ _ hkm, transform_getEnt_not_mem _ _ _ _ _ hkm,
        getEnt_setEnt_other _ _ _ _ hk]

/-- Fixture schema for the update witness: a string partition key, a plain
string attribute, and both timestamp columns. -/
def updMeta : Meta Unit where
  keys := ["id", "name", "CreatedAt", "UpdatedAt"]
  fields := fun k =>
    if k = "id" then { typeTag := some "string", partKey := some (some "string") }
    else if k = "name" then { typeTag := some "string" }
    else { typeTag := some "date", isDate := true }

/-- C4 (witness): the update theorem applied to a concrete schema, item and
previous snapshot, with the clock at 10 and the previous `UpdatedAt` at 4. -/
theorem update_preserves_createdAt_bumps_updatedAt_witness :
    ∃ written result : Ent,
      updateOp rtJ updMeta (fun _ => some [("id", .str "u1"), ("name", .str "Old"),
          ("CreatedAt", .num 2), ("UpdatedAt", .num 4)])
          [("id", .str "u1"), ("name", .str "New"), ("CreatedAt", .date 2)] 10
        = .ok (written, result, some (transform rtJ updMeta .deserialize
            [("id", .str "u1"), ("name", .str "Old"), ("CreatedAt", .num 2), ("UpdatedAt", .num 4)]))
      ∧ getEnt written "UpdatedAt" = .num 10
      ∧ getEnt result "UpdatedAt" = .date 10
      ∧ (4 : Int) < 10
      ∧ getEnt result "CreatedAt" = .date 2
      ∧ getEnt result "name" = .str "New" := by
  have h := update_preserves_createdAt_bumps_updatedAt rtJ updMeta
    [("id", .str "u1"), ("name", .str "New"), ("CreatedAt", .date 2)]
    [("id", .str "u1"), ("name", .str "Old"), ("CreatedAt", .num 2), ("UpdatedAt", .num 4)]
    10 2 4 (KeyMeta.mk "id" (some "string"))
    (by decide) (by rfl) (by decide)
    ⟨rfl, rfl, rfl, rfl, rfl⟩ (by decide) (by rfl)
    (fun _ => Or.inr (Or.inl ⟨rfl, rfl, rfl, rfl, rfl, Or.inr ⟨2, by decide, rfl⟩⟩))
    (by rfl) (by decide)
  obtain ⟨written, result, heq, hw, hr, hp, hc, hfw, hfnw, hfr⟩ := h
  refine ⟨written, result, heq, hw, hr, hp, hc, ?_⟩
  have := hfr "name" (by decide)
    (fun _ => Or.inr (Or.inr (Or.inr ⟨rfl, rfl, rfl, rfl, rfl⟩)))
  rw [this]
  rfl

/-- Fixture schema with a string partition key and a date attribute. -/
def ukMeta : Meta Unit where
  keys := ["id", "CreatedAt"]
  fields := fun k =>
    if k = "id" then { typeTag := some "string", partKey := some (some "string") }
    else { typeTag := some "date", isDate := true }

theorem except_bind_ok (a : A) (f : A → Except RepoError B) :
    (Except.ok a >>= f : Except RepoError B) = f a := rfl

/-! ## C5: delete reads first and treats absence as an error -/

/-- C5: `delete` first reads the item by the derived key; when the store
reports no item it fails with `NotFoundError` carrying exactly
`Instance <pk>[-<sk>] is not found for deletion` and issues no delete to the
store; when the item exists it issues the delete for the read key and raises
no error. -/
theorem delete_absent_is_notFound (m : Meta ρ) (storeGet : Ent → Option Ent)
    (pkv : Value) (skv : Option Value) (pkm : KeyMeta)
    (hpk : getPartitionKeyMeta m none = .ok pkm) :
    (∀ key, StoreEff.readItem key ∈ (deleteOp m storeGet pkv skv).1 → storeGet key = none →
      (deleteOp m storeGet pkv skv).2
          = some (.notFound ("Instance " ++ pkv.jsToString
              ++ (match skv with
                  | some v => if v.truthy then "-" ++ v.jsToString else ""
                  | none => "")
              ++ " is not found for deletion"))
        ∧ ∀ key2, StoreEff.deleteItem key2 ∉ (deleteOp m storeGet pkv skv).1)
    ∧ (∀ key, StoreEff.readItem key ∈ (deleteOp m storeGet pkv skv).1 →
        ∀ it, storeGet key = some it →
          (deleteOp m storeGet pkv skv).1 = [.readItem key, .deleteItem key]
            ∧ (deleteOp m storeGet pkv skv).2 = none) := by
  unfold deleteOp
  rw [hpk]
  constructor
  · intro key hkey hnone
    cases hsg : storeGet (match getSortKeyMeta m none with
      | some sk =>
          if (skv.map Value.truthy).getD false then
            setEnt (setEnt [] pkm.field (applySer (m.fields pkm.field).belongsTo pkv)) sk.field
              (applySer (m.fields sk.field).belongsTo (skv.getD .undef))
          else setEnt [] pkm.field (applySer (m.fields pkm.field).belongsTo pkv)
      | none => setEnt [] pkm.field (applySer (m.fields pkm.field).belongsTo pkv)) with
    | none =>
        simp only [hsg]
        refine ⟨trivial, ?_⟩
        intro key2 hmem
        simp only [List.mem_singleton] at hmem
        exact StoreEff.noConfusion hmem
    | some it =>
        simp only [hsg] at hkey ⊢
        simp only [List.mem_cons, List.not_mem_nil, or_false] at hkey
        rcases hkey with hkey | hkey
        · cases hkey
          rw [hnone] at hsg
          cases hsg
        · exact StoreEff.noConfusion hkey
  · intro key hkey it hsome
    cases hsg : storeGet (match getSortKeyMeta m none with
      | some sk =>
          if (skv.map Value.truthy).getD false then
            setEnt (setEnt [] pkm.field (applySer (m.fields pkm.field).belongsTo pkv)) sk.field
              (applySer (m.fields sk.field).belongsTo (skv.getD .undef))
          else setEnt [] pkm.field (applySer (m.fields pkm.field).belongsTo pkv)
      | none => setEnt [] pkm.field (applySer (m.fields pkm.field).belongsTo pkv)) with
    | none =>
        simp only [hsg] at hkey ⊢
        simp only [List.mem_singleton] at hkey
        cases hkey
        rw [hsome] at hsg
        cases hsg
    | some it2 =>
        simp only [hsg] at hkey ⊢
        simp only [List.mem_cons, List.not_mem_nil, or_false] at hkey
        rcases hkey with hkey | hkey
        · cases hkey
          exact ⟨rfl, trivial⟩
        · exact StoreEff.noConfusion hkey

/-- C5 (witness): deleting from an empty store fails with the exact
`NotFoundError` message and issues no delete; deleting an existing item
issues read-then-delete with no error. -/
theorem delete_absent_is_notFound_witness :
    ((deleteOp ukMeta (fun _ => none) (.str "u1") none).2
        = some (.notFound "Instance u1 is not found for deletion")
      ∧ ∀ key2, StoreEff.deleteItem key2 ∉ (deleteOp ukMeta (fun _ => none) (.str "u1") none).1)
    ∧ ((deleteOp ukMeta (fun _ => some [("CreatedAt", .num 3)]) (.str "u1") none).1
        = [.readItem [("id", .str "u1")], .deleteItem [("id", .str "u1")]]
      ∧ (deleteOp ukMeta (fun _ => some [("CreatedAt", .num 3)]) (.str "u1") none).2 = none) := by
  constructor
  · exact (delete_absent_is_notFound ukMeta (fun _ => none) (.str "u1") none
      (KeyMeta.mk "id" (some "string")) (by rfl)).1 [("id", .str "u1")]
      (List.mem_cons_self _ _) rfl
  · exact (delete_absent_is_notFound ukMeta (fun _ => some [("CreatedAt", .num 3)])
      (.str "u1") none (KeyMeta.mk "id" (some "string")) (by rfl)).2 [("id", .str "u1")]
      (List.mem_cons_self _ _) [("CreatedAt", .num 3)] rfl

/-! ## C7: getWithUniqueHashKey consistency assertion -/

/-- C7: `getWithUniqueHashKey` fails with `ConsistencyError`
("Hash key has more than 1 row") exactly when the partition-key query's page
matches more than one row; zero rows return `null` and exactly one row
returns that row (deserialized). -/
theorem getWithUniqueHashKey_consistency (J : JsonBuiltin κ) (m : Meta ρ)
    (page : RawPage κ) (pkv : Value) (pkm : KeyMeta)
    (hpk : getPartitionKeyMeta m none = .ok pkm)
    (hcount : page.count = page.rows.length) :
    ((getWithUniqueHashKey J m (fun _ => page) pkv
        = .error (.consistencyError "Hash key has more than 1 row")) ↔ page.rows.length > 1)
    ∧ (page.rows.length = 0 → getWithUniqueHashKey J m (fun _ => page) pkv = .ok none)
    ∧ (∀ r, page.rows = [r] →
        getWithUniqueHashKey J m (fun _ => page) pkv
          = .ok (some (transform J m .deserialize r))) := by
  have hq : queryOp J m (fun _ => page) pkv none {} = .ok (postProcess J m page) := by
    simp [queryOp, buildQueryReq, hpk, Except.bind]
  have hb : getWithUniqueHashKey J m (fun _ => page) pkv
      = (if page.rows.length > 1
          then .error (.consistencyError "Hash key has more than 1 row")
         else if page.rows.length = 0 then .ok none
         else .ok (postProcess J m page).rows.head?) := by
    unfold getWithUniqueHashKey
    rw [hq, except_bind_ok]
    have hcc : (postProcess J m page).count = page.rows.length := hcount
    simp only [hcc]
    rfl
  refine ⟨⟨?_, ?_⟩, ?_, ?_⟩
  · intro herr
    by_contra hlen
    simp only [gt_iff_lt, not_lt] at hlen
    rw [hb, if_neg (by omega)] at herr
    by_cases hz : page.rows.length = 0
    · rw [if_pos hz] at herr
      cases herr
    · rw [if_neg hz] at herr
      cases herr
  · intro hgt
    rw [hb, if_pos hgt]
  · intro hz
    rw [hb, if_neg (by omega), if_pos hz]
  · intro r hr
    rw [hb, if_neg (by rw [hr]; simp), if_neg (by rw [hr]; simp)]
    simp [postProcess, hr]

/-- C7 (witness): the consistency theorem applied to concrete two-row,
zero-row and one-row pages. -/
theorem getWithUniqueHashKey_consistency_witness :
    (getWithUniqueHashKey rtJ ukMeta
        (fun _ => RawPage.mk [[("CreatedAt", .num 1)], [("CreatedAt", .num 2)]] 2 none) (.str "u")
      = .error (.consistencyError "Hash key has more than 1 row"))
    ∧ (getWithUniqueHashKey rtJ ukMeta (fun _ => RawPage.mk [] 0 none) (.str "u") = .ok none)
    ∧ (getWithUniqueHashKey rtJ ukMeta
        (fun _ => RawPage.mk [[("CreatedAt", .num 5)]] 1 none) (.str "u")
      = .ok (some (transform rtJ ukMeta .deserialize [("CreatedAt", .num 5)]))) := by
  refine ⟨?_, ?_, ?_⟩
  · exact (getWithUniqueHashKey_consistency rtJ ukMeta
      (RawPage.mk [[("CreatedAt", .num 1)], [("CreatedAt", .num 2)]] 2 none) (.str "u")
      (KeyMeta.mk "id" (some "string")) (by rfl) (by rfl)).1.mpr (by decide)
  · exact (getWithUniqueHashKey_consistency rtJ ukMeta (RawPage.mk [] 0 none) (.str "u")
      (KeyMeta.mk "id" (some "string")) (by rfl) (by rfl)).2.1 (by decide)
  · exact (getWithUniqueHashKey_consistency rtJ ukMeta
      (RawPage.mk [[("CreatedAt", .num 5)]] 1 none) (.str "u")
      (KeyMeta.mk "id" (some "string")) (by rfl) (by rfl)).2.2 [("CreatedAt", .num 5)] rfl

/-! ## C8: the partition-key type check is dead code -/

/-- Discriminator for the `TypeMismatchError` taxonomy kind. -/
def isTypeMismatch : RepoError → Bool
  | .typeMismatch _ => true
  | _ => false

/-- Whether an engine call rejected with a `TypeMismatchError`. -/
def exceptHasTypeMismatch : Except RepoError A → Bool
  | .error e => isTypeMismatch e
  | .ok _ => false

theorem hasTM_bind (x : Except RepoError A) (f : A → Except RepoError B)
    (hx : exceptHasTypeMismatch x = false)
    (hf : ∀ a, exceptHasTypeMismatch (f a) = false) :
    exceptHasTypeMismatch (x >>= f) = false := by
  cases x with
  | error e => exact hx
  | ok a => exact hf a

theorem hasTM_getPartitionKeyMeta (m : Meta ρ) (idx : Option String) :
    exceptHasTypeMismatch (getPartitionKeyMeta m idx) = false := by
  unfold getPartitionKeyMeta
  cases m.keys.findSome? (fun k =>
      (match idx with
       | none => (m.fields k).partKey
       | some i => (m.fields k).partKeyIdx i).map (fun ty => KeyMeta.mk k ty)) <;> rfl

theorem hasTM_guard (km : KeyMeta) (pkv : Value) :
    exceptHasTypeMismatch (partitionKeyTypeGuard km pkv) = false := by
  unfold partitionKeyTypeGuard typeTagNameProp
  cases km.type <;> rfl

theorem except_bind_error (e : RepoError) (f : A → Except RepoError B) :
    (Except.error e >>= f : Except RepoError B) = .error e := rfl

theorem hasTM_buildQueryReq (J : JsonBuiltin κ) (m : Meta ρ) (pkv : Value)
    (skc : Option (String × Value)) (opts : QueryOpts) :
    exceptHasTypeMismatch (buildQueryReq J m pkv skc opts) = false := by
  unfold buildQueryReq
  cases hpk : getPartitionKeyMeta m opts.index with
  | error e =>
      have h := hasTM_getPartitionKeyMeta m opts.index
      rw [hpk] at h
      simp only [hpk, except_bind_error]
      exact h
  | ok hk =>
      simp only [hpk, except_bind_ok]
      cases skc with
      | none => rfl
      | some c =>
          obtain ⟨op, v⟩ := c
          cases hsk : getSortKeyMeta m opts.index with
          | none => simp only [hsk]; rfl
          | some sk => simp only [hsk]; rfl

theorem hasTM_queryOp (J : JsonBuiltin κ) (m : Meta ρ) (storeQ : StoreReq κ → RawPage κ)
    (pkv : Value) (skc : Option (String × Value)) (opts : QueryOpts) :
    exceptHasTypeMismatch (queryOp J m storeQ pkv skc opts) = false := by
  unfold queryOp
  exact hasTM_bind _ _ (hasTM_buildQueryReq J m pkv skc opts) (fun req => rfl)

theorem hasTM_foldlM (step : A → String → Except RepoError A) (l : List String) (a : A)
    (hstep : ∀ acc k, exceptHasTypeMismatch (step acc k) = false) :
    exceptHasTypeMismatch (l.foldlM step a) = false := by
  induction l generalizing a with
  | nil => rfl
  | cons k ks ih =>
      rw [List.foldlM_cons]
      exact hasTM_bind _ _ (hstep a k) (fun a2 => ih a2)

theorem hasTM_resolveStepMany (env : ρ → ClassDef ρ) (m : Meta ρ)
    (acc1 : List (String × JoinEntry ρ)) (key : String) :
    exceptHasTypeMismatch
      (match m.hasMany key with
       | some r => do
           let km ← getPartitionKeyMeta (env r).meta none
           pure (setAssoc acc1 key
             (JoinEntry.mk .hasMany r (((env r).meta.fields km.field).belongsTo)))
       | none => pure acc1) = false := by
  cases hmany : m.hasMany key with
  | none => rfl
  | some r =>
      cases hk : getPartitionKeyMeta (env r).meta none with
      | error e =>
          have h := hasTM_getPartitionKeyMeta (env r).meta none
          rw [hk] at h
          simp only [hk, except_bind_error]
          exact h
      | ok km => simp only [hk, except_bind_ok]; rfl

theorem hasTM_resolveRelated (env : ρ → ClassDef ρ) (m : Meta ρ) :
    exceptHasTypeMismatch (resolveRelatedRepositories env m) = false := by
  unfold resolveRelatedRepositories
  refine hasTM_foldlM _ _ _ (fun acc key => ?_)
  cases hone : m.hasOne key with
  | none =>
      simp only [hone, except_bind_ok]
      exact hasTM_resolveStepMany env m acc key
  | some r =>
      simp only [hone]
      cases hk : getPartitionKeyMeta (env r).meta none with
      | error e =>
          have h := hasTM_getPartitionKeyMeta (env r).meta none
          rw [hk] at h
          simp only [hk, except_bind_error]
          exact h
      | ok km =>
          simp only [hk, except_bind_ok]
          exact hasTM_resolveStepMany env m _ key

/-- C8 (amended): the partition-key type check of `get` never fires — the
stored type metadata is one of the decorators' string literals, which has no
`.name` property, so the guard `type.name && typeof value !== type`
short-circuits to false and `get` never rejects with a `TypeMismatchError`,
whatever schema, store and partition-key value are supplied (a mismatched
value proceeds to the store read; see the counterexample). -/
theorem hasTM_joinStep (J : JsonBuiltin κ) (env : ρ → ClassDef ρ)
    (storeQ : ρ → StoreReq κ → RawPage κ) (repos : List (String × JoinEntry ρ))
    (acc : Ent) (j : String) :
    exceptHasTypeMismatch
      (match lookupAssoc repos j with
       | none => Except.error RepoError.typeError
       | some entry => do
           let joined ← queryOp J (env entry.related).meta (storeQ entry.related)
             (Value.obj acc) none {}
           match entry.kind with
           | .hasOne => pure (setEnt acc j ((joined.rows.head?).elim Value.undef Value.obj))
           | .hasMany =>
               match joined.lastKey with
               | some s =>
                   if s ≠ "" then
                     Except.error (RepoError.joinError
                       ("Unable to join all rows of " ++ (env entry.related).name))
                   else pure (setEnt acc j (Value.arr (joined.rows.map Value.obj)))
               | none => pure (setEnt acc j (Value.arr (joined.rows.map Value.obj)))) = false := by
  cases hl : lookupAssoc repos j with
  | none => rfl
  | some entry =>
      cases hq : queryOp J (env entry.related).meta (storeQ entry.related)
          (Value.obj acc) none {} with
      | error e =>
          have h := hasTM_queryOp J (env entry.related).meta (storeQ entry.related)
            (Value.obj acc) none {}
          rw [hq] at h
          simp only [hq, except_bind_error]
          exact h
      | ok joined =>
          simp only [hq, except_bind_ok]
          cases entry.kind with
          | hasOne => rfl
          | hasMany =>
              cases joined.lastKey with
              | none => rfl
              | some str1 =>
                  by_cases hs : str1 = ""
                  · simp [hs, exceptHasTypeMismatch, isTypeMismatch, pure, Except.pure]
                  · simp [hs, exceptHasTypeMismatch, isTypeMismatch, pure, Except.pure]

/-- C8 (amended): the partition-key type check of `get` never fires — the
stored type metadata is one of the decorators' string literals, which has no
`.name` property, so the guard `type.name && typeof value !== type`
short-circuits to false and `get` never rejects with a `TypeMismatchError`,
whatever schema, store and partition-key value are supplied (a mismatched
value proceeds to the store read; see the counterexample). -/
theorem get_never_throws_typeMismatch (J : JsonBuiltin κ) (env : ρ → ClassDef ρ)
    (m : Meta ρ) (storeGet : Ent → Option Ent) (storeQ : ρ → StoreReq κ → RawPage κ)
    (pkv : Value) (skv : Option Value) (joins : List String) :
    exceptHasTypeMismatch (getOp J env m storeGet storeQ pkv skv joins) = false := by
  unfold getOp
  cases hpk : getPartitionKeyMeta m none with
  | error e =>
      have h := hasTM_getPartitionKeyMeta m none
      rw [hpk] at h
      simp only [hpk, except_bind_error]
      exact h
  | ok pkMeta =>
      simp only [hpk, except_bind_ok]
      cases hg : partitionKeyTypeGuard pkMeta pkv with
      | error e =>
          have h := hasTM_guard pkMeta pkv
          rw [hg] at h
          simp only [hg, except_bind_error]
          exact h
      | ok u =>
          simp only [hg, except_bind_ok]
          cases hres : transformOpt J m Mode.deserialize (storeGet
              (match getSortKeyMeta m none with
               | some sk =>
                   if (skv.map Value.truthy).getD false then
                     setEnt (setEnt [] pkMeta.field
                         (applySer (m.fields pkMeta.field).belongsTo pkv))
                       sk.field (applySer (m.fields sk.field).belongsTo (skv.getD .undef))
                   else setEnt [] pkMeta.field (applySer (m.fields pkMeta.field).belongsTo pkv)
               | none => setEnt [] pkMeta.field
                   (applySer (m.fields pkMeta.field).belongsTo pkv))) with
          | none => simp only [hres]; rfl
          | some r0 =>
              simp only [hres]
              by_cases hj : joins.isEmpty
              · simp only [hj, if_true]; rfl
              · simp only [hj, Bool.false_eq_true, if_false]
                cases hrr : resolveRelatedRepositories env m with
                | error e =>
                    have h := hasTM_resolveRelated env m
                    rw [hrr] at h
                    simp only [hrr, except_bind_error]
                    exact h
                | ok repos =>
                    simp only [hrr, except_bind_ok]
                    refine hasTM_bind _ _ ?_ (fun r => rfl)
                    refine hasTM_foldlM _ _ _ (fun acc j => ?_)
                    exact hasTM_joinStep J env storeQ repos acc j

/-- C8 (counterexample): on a schema whose declared partition-key type is the
concrete scalar tag `'string'`, a `get` with a **number** partition-key value
does not fail with `TypeMismatchError`: the store read is issued and its item
is returned — the claim's promised rejection never happens. -/
theorem get_with_mismatched_key_type_succeeds :
    getOp rtJ (fun _ => ClassDef.mk ukMeta "U") ukMeta
        (fun _ => some [("id", .str "x"), ("CreatedAt", .num 9)]) (fun _ _ => RawPage.mk [] 0 none)
        (.num 42) none []
      = .ok (some [("id", .str "x"), ("CreatedAt", .date 9)]) := rfl

/-! ## C9: missing belongs-to on the related type -/

/-- Fixture related class `B`: its partition-key field `ownerId` carries **no**
`@BelongsTo` serializer. -/
def bMeta : Meta Unit where
  keys := ["ownerId", "val"]
  fields := fun k =>
    if k = "ownerId" then { typeTag := some "string", partKey := some (some "string") }
    else { typeTag := some "string" }

/-- Fixture parent class `A` with a has-many relationship `items` to `B`. -/
def aMeta : Meta Unit where
  keys := ["id"]
  joinTables := ["items"]
  fields := fun _ => { typeTag := some "string", partKey := some (some "string") }
  hasMany := fun k => if k = "items" then some () else none

/-- C9 (amended): when the related type declares no belongs-to serializer on
its partition-key field, relationship resolution raises no error at all — no
`RelationshipError` exists in the engine — and the join's related query simply
proceeds, passing the supplied partition-key value (the parent object)
through unserialized as the query's partition-key equality condition. -/
theorem missing_belongsTo_join_proceeds (J : JsonBuiltin κ) (env : ρ → ClassDef ρ)
    (m mb : Meta ρ) (j : String) (r : ρ) (km : KeyMeta) (pkv : Value)
    (hjt : m.joinTables = [j]) (h1 : m.hasOne j = none) (h2 : m.hasMany j = some r)
    (henv : (env r).meta = mb)
    (hpk : getPartitionKeyMeta mb none = .ok km)
    (hbt : (mb.fields km.field).belongsTo = none) :
    resolveRelatedRepositories env m = .ok [(j, JoinEntry.mk .hasMany r none)]
    ∧ buildQueryReq J mb pkv none {}
        = .ok (StoreReq.mk [(km.field, .eqv pkv)] none none 1000 none) := by
  constructor
  · unfold resolveRelatedRepositories
    rw [hjt, List.foldlM_cons]
    simp only [h1, h2, henv, hpk, hbt, except_bind_ok]
    rfl
  · unfold buildQueryReq
    simp only [hpk, except_bind_ok, applySer, hbt]
    rfl

/-- C9 (counterexample): end to end on concrete classes — `B` has no
belongs-to field matching `A`, yet `get` on `A` with the `items` join
requested succeeds (no `RelationshipError`, no error of any kind): the join
is attached from the related query, whose partition-key condition carried the
raw parent object. -/
theorem missing_belongsTo_get_succeeds :
    (getOp rtJ (fun _ => ClassDef.mk bMeta "B") aMeta
        (fun _ => some [("id", .str "a1")]) (fun _ _ => RawPage.mk [] 0 none)
        (.str "a1") none ["items"]
      = .ok (some [("id", .str "a1"), ("items", .arr [])]))
    ∧ (buildQueryReq rtJ bMeta (.obj [("id", .str "a1")]) none {}
      = .ok (StoreReq.mk [("ownerId", .eqv (.obj [("id", .str "a1")]))] none none 1000 none)) :=
  ⟨rfl, rfl⟩

/-- C9 (witness): the amended theorem applied to the concrete `A`/`B`
fixtures. -/
theorem missing_belongsTo_join_proceeds_witness :
    resolveRelatedRepositories (fun _ => ClassDef.mk bMeta "B") aMeta
        = .ok [("items", JoinEntry.mk .hasMany () none)]
    ∧ buildQueryReq rtJ bMeta (.obj [("id", .str "a1")]) none {}
        = .ok (StoreReq.mk [("ownerId", .eqv (.obj [("id", .str "a1")]))] none none 1000 none) :=
  missing_belongsTo_join_proceeds rtJ (fun _ => ClassDef.mk bMeta "B") aMeta bMeta
    "items" () (KeyMeta.mk "ownerId" (some "string")) (.obj [("id", .str "a1")])
    rfl rfl rfl rfl rfl rfl

/-! ## C2: has-many join page overflow fails the get -/

/-- C2: during a `get` with a has-many join, if the related type's bounded
page query returns a raw continuation token (whose `JSON.stringify` text is
non-empty, as the stringification of a key object always is), the entire
`get` call fails with the `JoinError`
`Unable to join all rows of <RelatedClass>`; when no continuation token is
present, the full deserialized result page is attached to the returned
object. -/
theorem hasMany_join_page_overflow (J : JsonBuiltin κ) (env : ρ → ClassDef ρ)
    (m mb : Meta ρ) (j nameB : String) (r : ρ)
    (parentRaw : Ent) (page : RawPage κ) (pkv : Value) (skv : Option Value)
    (pkm kmB : KeyMeta) (tag : String)
    (hpk : getPartitionKeyMeta m none = .ok pkm)
    (htag : pkm.type = some tag)
    (hjt : m.joinTables = [j]) (h1 : m.hasOne j = none) (h2 : m.hasMany j = some r)
    (henv : env r = ClassDef.mk mb nameB)
    (hpkB : getPartitionKeyMeta mb none = .ok kmB) :
    (∀ k, page.lastKey = some k → J.keyStringify k ≠ "" →
      getOp J env m (fun _ => some parentRaw) (fun _ _ => page) pkv skv [j]
        = .error (.joinError ("Unable to join all rows of " ++ nameB)))
    ∧ (page.lastKey = none →
      getOp J env m (fun _ => some parentRaw) (fun _ _ => page) pkv skv [j]
        = .ok (some (setEnt (transform J m .deserialize parentRaw) j
            (.arr ((page.rows.map (transform J mb .deserialize)).map Value.obj))))) := by
  have hguard : partitionKeyTypeGuard pkm pkv = .ok () := by
    unfold partitionKeyTypeGuard typeTagNameProp
    rw [htag]
    rfl
  have hres : resolveRelatedRepositories env m
      = .ok [(j, JoinEntry.mk .hasMany r ((mb.fields kmB.field).belongsTo))] := by
    unfold resolveRelatedRepositories
    rw [hjt, List.foldlM_cons]
    simp only [h1, h2, henv, hpkB, except_bind_ok]
    rfl
  have hq : queryOp J mb (fun _ => page) (.obj (transform J m .deserialize parentRaw)) none {}
      = .ok (postProcess J mb page) := by
    simp [queryOp, buildQueryReq, hpkB, Except.bind]
  constructor
  · intro k hk hkne
    unfold getOp
    simp only [hpk, except_bind_ok, hguard, transformOpt]
    rw [if_neg (by simp), hres, except_bind_ok, List.foldlM_cons]
    simp [lookupAssoc, henv, hq, postProcess, hk, hkne, except_bind_ok]
  · intro hk
    unfold getOp
    simp only [hpk, except_bind_ok, hguard, transformOpt]
    rw [if_neg (by simp), hres, except_bind_ok, List.foldlM_cons]
    simp [lookupAssoc, henv, hq, postProcess, hk, except_bind_ok]
    rfl

/-- C2 (witness): the join-overflow theorem applied to the concrete `A`/`B`
fixtures — a related page carrying a continuation token fails the whole
`get`; an exhaustive page is attached in full. -/
theorem hasMany_join_page_overflow_witness :
    (getOp rtJ (fun _ => ClassDef.mk bMeta "B") aMeta
        (fun _ => some [("id", .str "a1")])
        (fun _ _ => RawPage.mk [[("ownerId", .str "a1")]] 1 (some 1))
        (.str "a1") none ["items"]
      = .error (.joinError "Unable to join all rows of B"))
    ∧ (getOp rtJ (fun _ => ClassDef.mk bMeta "B") aMeta
        (fun _ => some [("id", .str "a1")])
        (fun _ _ => RawPage.mk [[("ownerId", .str "a1")]] 1 none)
        (.str "a1") none ["items"]
      = .ok (some (setEnt (transform rtJ aMeta .deserialize [("id", .str "a1")]) "items"
          (.arr (([[("ownerId", .str "a1")]].map (transform rtJ bMeta .deserialize)).map
            Value.obj))))) := by
  constructor
  · exact (hasMany_join_page_overflow rtJ (fun _ => ClassDef.mk bMeta "B") aMeta bMeta
      "items" "B" () [("id", .str "a1")] (RawPage.mk [[("ownerId", .str "a1")]] 1 (some 1))
      (.str "a1") none (KeyMeta.mk "id" (some "string")) (KeyMeta.mk "ownerId" (some "string"))
      "string" rfl rfl rfl rfl rfl rfl rfl).1 1 rfl (by decide)
  · exact (hasMany_join_page_overflow rtJ (fun _ => ClassDef.mk bMeta "B") aMeta bMeta
      "items" "B" () [("id", .str "a1")] (RawPage.mk [[("ownerId", .str "a1")]] 1 none)
      (.str "a1") none (KeyMeta.mk "id" (some "string")) (KeyMeta.mk "ownerId" (some "string"))
      "string" rfl rfl rfl rfl rfl rfl rfl).2 rfl

/-! ## C10: pagination contract of query and scan -/

theorem tableQuery_startAt_none [DecidableEq κ] (rows : List Ent) (keyOf : Ent → κ)
    (req : StoreReq κ) (h : req.startAt = none) :
    tableQuery rows keyOf req =
      RawPage.mk (rows.take req.limit) (rows.take req.limit).length
        (if rows.length ≤ req.limit then none
         else (rows.take req.limit).getLast?.map keyOf) := by
  unfold tableQuery
  rw [h]

theorem dropWhile_key [DecidableEq κ] (keyOf : Ent → κ) (A B : List Ent) (x : Ent)
    (hA : ∀ a ∈ A, keyOf a ≠ keyOf x) :
    ((A ++ x :: B).dropWhile (fun r => decide (keyOf r ≠ keyOf x))).tail = B := by
  induction A with
  | nil => simp [List.dropWhile_cons]
  | cons a A ih =>
      have ha := hA a (List.mem_cons_self _ _)
      rw [List.cons_append, List.dropWhile_cons, if_pos (decide_eq_true ha)]
      exact ih (fun b hb => hA b (List.mem_cons_of_mem _ hb))

theorem take_decomp (R : List Ent) (L : Nat) (x : Ent)
    (hx : (R.take L).getLast? = some x) :
    R = (R.take L).dropLast ++ x :: R.drop L := by
  have h1 : R.take L ≠ [] := by
    intro h
    rw [h] at hx
    cases hx
  have h2 : (R.take L).dropLast ++ [x] = R.take L := by
    have h3 := List.dropLast_append_getLast h1
    have h4 : (R.take L).getLast h1 = x := by
      have h5 := List.getLast?_eq_getLast (R.take L) h1
      rw [h5] at hx
      exact Option.some.inj hx
    rw [h4] at h3
    exact h3
  calc R = R.take L ++ R.drop L := (List.take_append_drop L R).symm
    _ = ((R.take L).dropLast ++ [x]) ++ R.drop L := by rw [h2]
    _ = (R.take L).dropLast ++ x :: R.drop L := by simp

theorem nodup_head_keys (keyOf : Ent → κ) (A B : List Ent) (x : Ent)
    (hnd : ((A ++ x :: B).map keyOf).Nodup) : ∀ a ∈ A, keyOf a ≠ keyOf x := by
  intro a ha heq
  rw [List.map_append, List.map_cons] at hnd
  have hdisj := List.disjoint_of_nodup_append hnd
  exact hdisj (List.mem_map_of_mem keyOf ha)
    (by rw [heq]; exact List.mem_cons_self _ _)

theorem tableQuery_resume [DecidableEq κ] (R : List Ent) (keyOf : Ent → κ) (L : Nat)
    (x : Ent) (req : StoreReq κ) (hnd : (R.map keyOf).Nodup)
    (hx : (R.take L).getLast? = some x) (hstart : req.startAt = some (keyOf x)) :
    tableQuery R keyOf req =
      RawPage.mk ((R.drop L).take req.limit) ((R.drop L).take req.limit).length
        (if (R.drop L).length ≤ req.limit then none
         else ((R.drop L).take req.limit).getLast?.map keyOf) := by
  have hdec := take_decomp R L x hx
  have hA : ∀ a ∈ (R.take L).dropLast, keyOf a ≠ keyOf x :=
    nodup_head_keys keyOf _ _ x (by rw [← hdec]; exact hnd)
  have hpos : (R.dropWhile (fun r => decide (keyOf r ≠ keyOf x))).tail = R.drop L := by
    conv_lhs => rw [hdec]
    exact dropWhile_key keyOf _ _ x hA
  unfold tableQuery
  rw [hstart]
  simp only [hpos]

theorem keys_take_drop_disjoint (R : List Ent) (keyOf : Ent → κ) (L L2 : Nat)
    (hnd : (R.map keyOf).Nodup) :
    List.Disjoint ((R.take L).map keyOf) (((R.drop L).take L2).map keyOf) := by
  have hsplit : R.map keyOf = (R.take L).map keyOf ++ (R.drop L).map keyOf := by
    rw [← List.map_append, List.take_append_drop]
  rw [hsplit] at hnd
  have hdisj := List.disjoint_of_nodup_append hnd
  intro a h1 h2
  exact hdisj h1 (List.map_subset keyOf (List.take_subset L2 (R.drop L)) h2)

/-- Pushing the token stringification through the store page's optional raw
last key. -/
theorem map_stringify_if (J : JsonBuiltin κ) (keyOf : Ent → κ) (c : Prop)
    [Decidable c] (o : Option Ent) :
    Option.map J.keyStringify (if c then none else Option.map keyOf o)
      = if c then none else Option.map (fun y => J.keyStringify (keyOf y)) o := by
  split
  · rfl
  · rw [Option.map_map]
    rfl

/-- Source `Repository.scan` with no filter conditions issues the store scan with
empty conditions and the decoded resume position. -/
theorem scanOp_no_filters (J : JsonBuiltin κ) (m : Meta ρ)
    (storeS : StoreReq κ → RawPage κ) (opts : QueryOpts) :
    scanOp J m storeS none none opts
      = .ok (postProcess J m (storeS (StoreReq.mk [] opts.index
          (match opts.lastKey with
           | some s => if s ≠ "" then some (J.keyParse s) else none
           | none => none) (opts.limit.getD 1000) none))) := rfl

/-- C10: against the backing store's pagination primitive (modelled from the
spec's §6 contract), `query` and `scan` return the page's rows deserialized,
`count` equal to the page's row count, and `lastKey` absent exactly when the
store reports the page exhausted; a present `lastKey` is the opaque
`JSON.stringify` text of the raw key of the page's last row, and passing it
back as `options.lastKey` resumes strictly after that row, so that
consecutive pages carry disjoint key sets. -/
theorem query_scan_pagination_contract (J : JsonBuiltin κ) [DecidableEq κ] (m : Meta ρ)
    (R : List Ent) (keyOf : Ent → κ) (pkv : Value) (pkm : KeyMeta) (L L2 : Nat)
    (hpk : getPartitionKeyMeta m none = .ok pkm)
    (hnd : (R.map keyOf).Nodup)
    (hkrt : ∀ k : κ, J.keyParse (J.keyStringify k) = k)
    (hkne : ∀ k : κ, J.keyStringify k ≠ "") :
    (queryOp J m (tableQuery R keyOf) pkv none { limit := some L }
      = .ok (QueryResult.mk ((R.take L).map (transform J m .deserialize)) (R.take L).length
          (if R.length ≤ L then none
           else (R.take L).getLast?.map (fun y => J.keyStringify (keyOf y)))))
    ∧ (scanOp J m (tableQuery R keyOf) none none { limit := some L }
      = .ok (QueryResult.mk ((R.take L).map (transform J m .deserialize)) (R.take L).length
          (if R.length ≤ L then none
           else (R.take L).getLast?.map (fun y => J.keyStringify (keyOf y)))))
    ∧ (∀ x, (R.take L).getLast? = some x →
        (queryOp J m (tableQuery R keyOf) pkv none
            { limit := some L2, lastKey := some (J.keyStringify (keyOf x)) }
          = .ok (QueryResult.mk (((R.drop L).take L2).map (transform J m .deserialize))
              ((R.drop L).take L2).length
              (if (R.drop L).length ≤ L2 then none
               else ((R.drop L).take L2).getLast?.map (fun y => J.keyStringify (keyOf y)))))
        ∧ (scanOp J m (tableQuery R keyOf) none none
            { limit := some L2, lastKey := some (J.keyStringify (keyOf x)) }
          = .ok (QueryResult.mk (((R.drop L).take L2).map (transform J m .deserialize))
              ((R.drop L).take L2).length
              (if (R.drop L).length ≤ L2 then none
               else ((R.drop L).take L2).getLast?.map (fun y => J.keyStringify (keyOf y))))))
    ∧ List.Disjoint ((R.take L).map keyOf) (((R.drop L).take L2).map keyOf) := by
  have hpage1 : ∀ req : StoreReq κ, req.startAt = none → req.limit = L →
      postProcess J m (tableQuery R keyOf req)
        = QueryResult.mk ((R.take L).map (transform J m .deserialize)) (R.take L).length
            (if R.length ≤ L then none
             else (R.take L).getLast?.map (fun y => J.keyStringify (keyOf y))) := by
    intro req h1 h2
    rw [tableQuery_startAt_none R keyOf req h1, h2]
    unfold postProcess
    simp only [map_stringify_if]
  have hpage2 : ∀ (x : Ent) (req : StoreReq κ), (R.take L).getLast? = some x →
      req.startAt = some (keyOf x) → req.limit = L2 →
      postProcess J m (tableQuery R keyOf req)
        = QueryResult.mk (((R.drop L).take L2).map (transform J m .deserialize))
            ((R.drop L).take L2).length
            (if (R.drop L).length ≤ L2 then none
             else ((R.drop L).take L2).getLast?.map (fun y => J.keyStringify (keyOf y))) := by
    intro x req hx h1 h2
    rw [tableQuery_resume R keyOf L x req hnd hx h1, h2]
    unfold postProcess
    simp only [map_stringify_if]
  have hb1 : buildQueryReq J m pkv none { limit := some L }
      = .ok (StoreReq.mk
          [(pkm.field, StoreCond.eqv (applySer (m.fields pkm.field).belongsTo pkv))]
          none none L none) := by
    simp only [buildQueryReq, hpk, except_bind_ok]
    rfl
  refine ⟨?_, ?_, fun x hx => ⟨?_, ?_⟩, keys_take_drop_disjoint R keyOf L L2 hnd⟩
  · unfold queryOp
    rw [hb1, except_bind_ok]
    exact congrArg Except.ok (hpage1 _ rfl rfl)
  · rw [scanOp_no_filters]
    exact congrArg Except.ok (hpage1 _ rfl rfl)
  · have hb2 : buildQueryReq J m pkv none
        { limit := some L2, lastKey := some (J.keyStringify (keyOf x)) }
        = .ok (StoreReq.mk
            [(pkm.field, StoreCond.eqv (applySer (m.fields pkm.field).belongsTo pkv))]
            none (some (keyOf x)) L2 none) := by
      simp only [buildQueryReq, hpk, except_bind_ok]
      rw [if_pos (hkne (keyOf x)), hkrt (keyOf x)]
      rfl
    unfold queryOp
    rw [hb2, except_bind_ok]
    exact congrArg Except.ok (hpage2 x _ hx rfl rfl)
  · rw [scanOp_no_filters]
    refine congrArg Except.ok (hpage2 x _ hx ?_ rfl)
    show (match some (J.keyStringify (keyOf x)) with
          | some s => if s ≠ "" then some (J.keyParse s) else none
          | none => none) = some (keyOf x)
    have hred : (match some (J.keyStringify (keyOf x)) with
          | some s => if s ≠ "" then some (J.keyParse s) else none
          | none => none)
        = if J.keyStringify (keyOf x) ≠ "" then some (J.keyParse (J.keyStringify (keyOf x)))
          else none := rfl
    rw [hred, if_pos (hkne (keyOf x)), hkrt (keyOf x)]

/-- Concrete JSON builtin for the pagination witness: the raw key `n`
round-trips through a non-empty token of `n + 1` characters. -/
def pageJ : JsonBuiltin Nat where
  stringify := fun _ => "{}"
  parseV := fun v => v
  keyStringify := fun n => String.mk (List.replicate (n + 1) 'k')
  keyParse := fun s => s.length - 1

/-- Five store rows with distinct ids, in key order. -/
def c10Rows : List Ent :=
  [[("id", .num 1)], [("id", .num 2)], [("id", .num 3)], [("id", .num 4)], [("id", .num 5)]]

/-- Raw continuation key of a row: its numeric id. -/
def c10Key (e : Ent) : Nat :=
  match getEnt e "id" with
  | .num n => n.toNat
  | _ => 0

/-- C10 (witness): the pagination theorem applied to a five-row table at page
size 3 — the first page carries a token, resuming with it yields the
remaining two rows with an absent token, and the two pages' key sets are
disjoint. -/
theorem query_scan_pagination_contract_witness :
    (queryOp pageJ ukMeta (tableQuery c10Rows c10Key) (.str "p") none { limit := some 3 }
      = .ok (QueryResult.mk ((c10Rows.take 3).map (transform pageJ ukMeta .deserialize)) 3
          (some (pageJ.keyStringify 3))))
    ∧ (queryOp pageJ ukMeta (tableQuery c10Rows c10Key) (.str "p") none
        { limit := some 3, lastKey := some (pageJ.keyStringify 3) }
      = .ok (QueryResult.mk ((c10Rows.drop 3).map (transform pageJ ukMeta .deserialize)) 2 none))
    ∧ List.Disjoint ((c10Rows.take 3).map c10Key) (((c10Rows.drop 3).take 3).map c10Key) := by
  have hkrt : ∀ k : Nat, pageJ.keyParse (pageJ.keyStringify k) = k := by
    intro k
    show (String.mk (List.replicate (k + 1) 'k')).length - 1 = k
    simp [String.length]
  have hkne : ∀ k : Nat, pageJ.keyStringify k ≠ "" := by
    intro k h
    have h' : String.mk (List.replicate (k + 1) 'k') = "" := h
    have h2 := congrArg String.length h'
    simp [String.length] at h2
  have h := query_scan_pagination_contract pageJ ukMeta c10Rows c10Key (.str "p")
    (KeyMeta.mk "id" (some "string")) 3 3 (by rfl) (by decide) hkrt hkne
  refine ⟨?_, ?_, h.2.2.2⟩
  · exact h.1
  · exact (h.2.2.1 [("id", .num 3)] rfl).1

end TypedDdb
